import Mathlib

/-!
A shallow embedding of the notmuch indexing core (src/database.cc) and a
verification of the frozen specification claims against it.

Modelling conventions:
* C byte strings are modelled as `List Char` (the sources only handle the
  strings byte-wise, so each `Char` stands for one byte).
* The Xapian backend is modelled by the capability set the source uses:
  documents carry a term set, slot values and an opaque data payload; a
  database is the list of committed documents; `postlist` enumerates, in
  ascending docid order, the documents carrying a literal term (Xapian
  posting lists iterate in document-id order).
* The GLib hash table used by `find_thread_ids` guarantees only the set of
  keys; `g_hash_table_get_keys` returns them in an unspecified order.  The
  resolver is therefore parametrised by an enumeration function `e`; the
  contract `EnumOk e` states that the enumeration is a permutation of the
  stored key set (kept here in first-insertion order).
* `rand` draws for `thread_id_generate` and the two failure oracles of
  `notmuch_database_add_message` (file open failure, backend exception)
  are explicit parameters.
-/

/-- A C byte string, one `Char` per byte. -/
abbrev Str := List Char

/-- An index document: opaque payload, term set and slot values, mirroring
the Xapian document interface used by the source. -/
structure Document where
  data : Str := []
  terms : List Str := []
  values : List (Nat × Str) := []
deriving DecidableEq

/-- The search index: the list of committed documents, docid = position. -/
structure Database where
  docs : List Document
deriving DecidableEq

/-- Read a slot value; an unset slot reads as the empty string, as with
Xapian get_value. -/
def getValue (doc : Document) (slot : Nat) : Str :=
  match doc.values.find? (fun p => p.fst = slot) with
  | some p => p.snd
  | none => []

/-- Xapian Document add_value. -/
def addValue (doc : Document) (slot : Nat) (v : Str) : Document :=
  { doc with values := (slot, v) :: doc.values }

/-- Xapian Document add_term: the term set gains the term (set semantics). -/
def addTermRaw (doc : Document) (t : Str) : Document :=
  if t ∈ doc.terms then doc else { doc with terms := doc.terms ++ [t] }

/-- The docid of each document is its position in `docs`. -/
def dbDoc (db : Database) (i : Nat) : Document :=
  db.docs.getD i {}

/-- Posting list of a literal term: the docids of the documents carrying
it, in ascending docid order (the order Xapian posting lists iterate in). -/
def postlist (db : Database) (t : Str) : List Nat :=
  (List.range db.docs.length).filter (fun i => t ∈ (dbDoc db i).terms)

/-- NORMAL_PREFIX from the source. -/
def normal_prefixes : List (Str × Str) :=
  [("subject".data, "S".data), ("body".data, "B".data),
   ("from_name".data, "FN".data), ("to_name".data, "TN".data),
   ("name".data, "N".data), ("attachment".data, "A".data)]

/-- BOOLEAN_PREFIX from the source. -/
def boolean_prefixes : List (Str × Str) :=
  [("type".data, "K".data), ("from_email".data, "FE".data),
   ("to_email".data, "TE".data), ("email".data, "E".data),
   ("date".data, "D".data), ("label".data, "L".data),
   ("source_id".data, "I".data), ("attachment_extension".data, "O".data),
   ("msgid".data, "Q".data), ("thread".data, "H".data),
   ("ref".data, "R".data)]

/-- First-match lookup in a prefix table (the strcmp loops of the source). -/
def lookupStr (name : Str) : List (Str × Str) → Option Str
  | [] => none
  | p :: rest => if p.fst = name then some p.snd else lookupStr name rest

/-- find_prefix from the source: NORMAL_PREFIX first, then BOOLEAN_PREFIX,
falling back to the empty string. -/
def prefix_of (name : Str) : Str :=
  match lookupStr name normal_prefixes with
  | some p => p
  | none =>
    match lookupStr name boolean_prefixes with
    | some p => p
    | none => []

/-- NOTMUCH_MAX_TERM from the source. -/
def NOTMUCH_MAX_TERM : Nat := 245

/-- add_term from the source: a null value is a no-op; otherwise the
prefixed term is added exactly when it is within the length cap, and an
overlong term is dropped entirely. -/
def add_term (doc : Document) (prefix_name : Str) (value : Option Str) :
    Document :=
  match value with
  | none => doc
  | some v =>
    let term := prefix_of prefix_name ++ v
    if term.length ≤ NOTMUCH_MAX_TERM then addTermRaw doc term else doc

/-- Nat rendered as exactly eight lowercase hexadecimal digits, as the
sprintf format of thread_id_generate does for a uint32 value. -/
def hex8 (n : Nat) : Str :=
  (List.range 8).map (fun i => Nat.digitChar (n / 16 ^ (7 - i) % 16))

/-- thread_id_generate from the source: four rand() draws, each stored
into a uint32 and printed with a zero-padded eight-digit lowercase
hexadecimal format.  The four draws are explicit parameters. -/
def thread_id_generate (r : Nat × Nat × Nat × Nat) : Str :=
  hex8 (r.1 % 2 ^ 32) ++ hex8 (r.2.1 % 2 ^ 32) ++
  hex8 (r.2.2.1 % 2 ^ 32) ++ hex8 (r.2.2.2 % 2 ^ 32)

/-- Splitting loop of insert_thread_id: walk the value, cutting at each
comma; after consuming a comma the loop stops if the rest is empty, so a
trailing comma yields no trailing empty fragment.  `cur` is the reversed
fragment collected so far. -/
def fragsGo (cur : Str) : Str → List Str
  | [] => [cur.reverse]
  | c :: s =>
    if c = ',' then
      if s.isEmpty then [cur.reverse] else cur.reverse :: fragsGo [] s
    else
      fragsGo (c :: cur) s

/-- The fragments insert_thread_id extracts from a slot-1 value: nothing
for the empty string, otherwise the comma-separated pieces. -/
def frags : Str → List Str
  | [] => []
  | c :: s => fragsGo [] (c :: s)

/-- GHashTable key insertion as used by find_thread_ids: the key set is
kept in first-insertion order; inserting an existing key is a no-op on
the key set. -/
def tIns (t : List Str) (s : Str) : List Str :=
  if s ∈ t then t else t ++ [s]

/-- insert_thread_id from the source: read slot 1 of the document, and if
it is non-empty insert every comma-separated fragment into the table. -/
def insert_thread_id (t : List Str) (doc : Document) : List Str :=
  let value := getValue doc 1
  if value = [] then t else (frags value).foldl tIns t

/-- find_message_by_docid from the source. -/
def find_message_by_docid (db : Database) (i : Nat) : Document :=
  dbDoc db i

/-- find_message_by_message_id from the source: the first document, in
posting-list order, carrying the msgid term; an empty document if none. -/
def find_message_by_message_id (db : Database) (message_id : Str) :
    Document :=
  match postlist db (prefix_of "msgid".data ++ message_id) with
  | [] => {}
  | i :: _ => find_message_by_docid db i

/-- The string find_messages_by_term formats for a possibly-null
message_id: g_strdup_printf renders a NULL argument of a s-format as the
six characters of a parenthesised null marker (glibc behaviour). -/
def midCStr : Option Str → Str
  | some m => m
  | none => "(null)".data

/-- The docids scanned by the children loop of find_thread_ids. -/
def child_docids (db : Database) (message_id : Option Str) : List Nat :=
  postlist db (prefix_of "ref".data ++ midCStr message_id)

/-- The key set of the GHashTable built by find_thread_ids, in
first-insertion order: the children loop in posting-list order, then the
parents loop in header order. -/
def resolver_table (db : Database) (parents : List Str)
    (message_id : Option Str) : List Str :=
  let t := (child_docids db message_id).foldl
    (fun t i => insert_thread_id t (find_message_by_docid db i)) []
  parents.foldl
    (fun t p => insert_thread_id t (find_message_by_message_id db p)) t

/-- find_thread_ids from the source: the keys of the aggregation hash
table, read back through g_hash_table_get_keys, whose enumeration order
is the parameter `e`. -/
def find_thread_ids (e : List Str → List Str) (db : Database)
    (parents : List Str) (message_id : Option Str) : List Str :=
  e (resolver_table db parents message_id)

/-- What GLib guarantees about g_hash_table_get_keys: every key exactly
once, in some unspecified order. -/
def EnumOk (e : List Str → List Str) : Prop :=
  ∀ l : List Str, (e l).Perm l

/-- The comma join the thread branch of add_message builds with its
GString: first id verbatim, every further id preceded by a comma. -/
def joinComma (l : List Str) : Str :=
  List.intercalate [','] l

/-- The parsed-message outputs the source obtains from GMime: the
Message-ID header, the decoded References-then-In-Reply-To parent ids,
and the date. -/
structure Message where
  message_id : Option Str
  parents : List Str
  date : Int
deriving DecidableEq

instance : Inhabited Message := ⟨⟨none, [], 0⟩⟩

/-- Stand-in for the backend Xapian sortable_serialise encoder applied to
the message date; no claim depends on its value. -/
def sortable_serialise (t : Int) : Str :=
  (toString t).data

/-- notmuch_status_t values used by the source. -/
inductive Status where
  | SUCCESS
  | XAPIAN_EXCEPTION
deriving DecidableEq

/-- The diagnostics the source prints to stderr, by site. -/
inductive Diag where
  | errorOpening
  | xapianError
  | cannotCreateDb
  | notADirectory
  | cannotCreateDir
  | cannotStat
deriving DecidableEq

/-- Process-level outcome of add_message: either the process exits, or
the call returns a status with the resulting database state. -/
inductive AddOutcome where
  | exited (code : Nat)
  | returned (db : Database) (st : Status)
deriving DecidableEq

/-- The document notmuch_database_add_message builds inside its try
block, in source order: set the payload, add one ref term per parent,
resolve the thread set, add the msgid term and slot 0, then either add
one thread term per resolved id and join them into slot 1, or mint a
fresh id when the resolution is empty and a Message-ID is present, and
finally write the date into slot 2. -/
def buildDocument (e : List Str → List Str) (db : Database)
    (filename : Str) (msg : Message) (rand : Nat × Nat × Nat × Nat) :
    Document :=
  let doc : Document := {}
  let doc := { doc with data := filename }
  let doc := msg.parents.foldl
    (fun d p => add_term d "ref".data (some p)) doc
  let tids := find_thread_ids e db msg.parents msg.message_id
  let doc :=
    match msg.message_id with
    | some mid => addValue (add_term doc "msgid".data (some mid)) 0 mid
    | none => doc
  let doc :=
    if tids = [] then
      match msg.message_id with
      | some _ =>
        let fresh := thread_id_generate rand
        addValue (add_term doc "thread".data (some fresh)) 1 fresh
      | none => doc
    else
      addValue
        (tids.foldl (fun d t => add_term d "thread".data (some t)) doc)
        1 (joinComma tids)
  addValue doc 2 (sortable_serialise msg.date)

/-- notmuch_database_add_message from the source.  `fileOk` models the
fopen of the message file succeeding (on failure the source prints a
diagnostic and exits the process).  `exn` models a backend exception
being raised inside the try block; the block only reads the index before
its single final add_document write, so a raised exception leaves the
index unchanged and the call returns the exception status. -/
def notmuch_database_add_message (e : List Str → List Str)
    (db : Database) (filename : Str) (msg : Message)
    (rand : Nat × Nat × Nat × Nat) (fileOk exn : Bool) :
    AddOutcome × List Diag :=
  if fileOk = false then
    (AddOutcome.exited 1, [Diag.errorOpening])
  else if exn then
    (AddOutcome.returned db Status.XAPIAN_EXCEPTION, [Diag.xapianError])
  else
    (AddOutcome.returned ⟨db.docs ++ [buildDocument e db filename msg rand]⟩
      Status.SUCCESS, [])

/-- One ingest step of a corpus run: a filename, the parsed message, and
the four rand() draws available to thread_id_generate at that step. -/
structure Ingest where
  filename : Str
  msg : Message
  rand : Nat × Nat × Nat × Nat
deriving DecidableEq

instance : Inhabited Ingest := ⟨⟨[], default, (0, 0, 0, 0)⟩⟩

/-- Database state after a successful add_message call for one ingest. -/
def stepDb (e : List Str → List Str) (db : Database) (i : Ingest) :
    Database :=
  match notmuch_database_add_message e db i.filename i.msg i.rand
      true false with
  | (AddOutcome.returned db' _, _) => db'
  | _ => db

/-- The index produced by ingesting a corpus in order, starting from a
fresh (empty) index. -/
def runTrace (e : List Str → List Str) (inputs : List Ingest) : Database :=
  inputs.foldl (stepDb e) ⟨[]⟩

/-- The filesystem and backend conditions database open and create
consult, as oracles: stat success, the directory check, mkdir success
and the Xapian open succeeding. -/
structure FsModel where
  statOk : Str → Bool
  isDir : Str → Bool
  mkdirOk : Str → Bool
  xapianOpenOk : Str → Bool

/-- The handle notmuch_database_open builds: it stores the supplied path;
`xapianInit` records whether the backend field was actually assigned
(the catch branch of the source leaves it unassigned). -/
structure NotmuchDb where
  path : Str
  xapianInit : Bool
deriving DecidableEq

/-- notmuch_database_open from the source: requires path/.notmuch to
stat; then allocates the handle, stores the path, and tries to open the
Xapian index.  NOTE the source catches a failed Xapian open, prints the
diagnostic, but still returns the (non-null) handle. -/
def notmuch_database_open (fs : FsModel) (path : Str) :
    Option NotmuchDb × List Diag :=
  let notmuch_path := path ++ "/.notmuch".data
  if fs.statOk notmuch_path = false then
    (none, [Diag.cannotStat])
  else
    let xapian_path := notmuch_path ++ "/xapian".data
    if fs.xapianOpenOk xapian_path then
      (some { path := path, xapianInit := true }, [])
    else
      (some { path := path, xapianInit := false }, [Diag.xapianError])

/-- notmuch_database_create from the source: stat the path, require a
directory, create the .notmuch subdirectory, then open. -/
def notmuch_database_create (fs : FsModel) (path : Str) :
    Option NotmuchDb × List Diag :=
  if fs.statOk path = false then
    (none, [Diag.cannotCreateDb])
  else if fs.isDir path = false then
    (none, [Diag.notADirectory])
  else if fs.mkdirOk (path ++ "/.notmuch".data) = false then
    (none, [Diag.cannotCreateDir])
  else
    notmuch_database_open fs path

/-- A lowercase hexadecimal digit, identified by its byte value. -/
def isHexDigit (c : Char) : Bool :=
  (48 ≤ c.toNat && c.toNat ≤ 57) || (97 ≤ c.toNat && c.toNat ≤ 102)

/-- The shape of every minted ThreadId: exactly 32 lowercase hex digits. -/
def isHexId32 (s : Str) : Bool :=
  s.length == 32 && s.all isHexDigit

/-- The well-formedness we track for every persisted slot-1 value: it is
the comma join of a non-empty list of 32-digit hex ids. -/
def Slot1WF (doc : Document) : Prop :=
  ∀ v : Str, (1, v) ∈ doc.values →
    ∃ l : List Str, l ≠ [] ∧ (∀ s ∈ l, isHexId32 s = true) ∧ v = joinComma l

/-- Index-wide slot-1 well-formedness. -/
def DbWF (db : Database) : Prop :=
  ∀ doc ∈ db.docs, Slot1WF doc

/-- Helper for dedupFirst: drop every element already seen, keep the
first occurrence of each new one. -/
def dedupFirstGo (seen : List Str) : List Str → List Str
  | [] => []
  | a :: l =>
    if a ∈ seen then dedupFirstGo seen l
    else a :: dedupFirstGo (a :: seen) l

/-- De-duplication keeping the first occurrence, in order: the key set a
first-insertion-ordered hash table holds after inserting a sequence. -/
def dedupFirst (l : List Str) : List Str :=
  dedupFirstGo [] l

/-- The discovery-order sequence of thread ids the resolver encounters:
slot-1 fragments of the children in posting-list order, then slot-1
fragments of the referenced parents in header order. -/
def discoverySeq (db : Database) (parents : List Str)
    (message_id : Option Str) : List Str :=
  ((child_docids db message_id).map
    (fun i => frags (getValue (find_message_by_docid db i) 1))).flatten ++
  (parents.map
    (fun p => frags (getValue (find_message_by_message_id db p) 1))).flatten

/-! ### Basic lemmas about the comma join and the splitting loop -/

theorem joinComma_nil : joinComma [] = [] := rfl

theorem joinComma_single (a : Str) : joinComma [a] = a := by
  simp [joinComma, List.intercalate]

theorem joinComma_cons_cons (a b : Str) (l : List Str) :
    joinComma (a :: b :: l) = a ++ ',' :: joinComma (b :: l) := by
  simp [joinComma, List.intercalate, List.intersperse_cons_cons]

theorem joinComma_ne_nil (a : Str) (l : List Str) (ha : a ≠ []) :
    joinComma (a :: l) ≠ [] := by
  cases l with
  | nil => rw [joinComma_single]; exact ha
  | cons b l' =>
    rw [joinComma_cons_cons]
    intro h
    rcases List.append_eq_nil.mp h with ⟨-, h2⟩
    exact List.cons_ne_nil _ _ h2

theorem frags_eq_fragsGo (s : Str) (h : s ≠ []) : frags s = fragsGo [] s := by
  cases s with
  | nil => exact absurd rfl h
  | cons c s' => rfl

theorem fragsGo_append (x : Str) (h : ',' ∉ x) :
    ∀ (cur s : Str), fragsGo cur (x ++ s) = fragsGo (x.reverse ++ cur) s := by
  induction x with
  | nil => intro cur s; simp
  | cons c x ih =>
    intro cur s
    have hc : ¬ c = ',' := by
      intro hc
      exact h (hc ▸ List.mem_cons_self c x)
    simp only [List.cons_append, fragsGo, if_neg hc, List.append_eq]
    rw [ih (fun hm => h (List.mem_cons_of_mem c hm))]
    simp [List.append_assoc]

theorem fragsGo_comma (cur s : Str) (h : s ≠ []) :
    fragsGo cur (',' :: s) = cur.reverse :: fragsGo [] s := by
  simp [fragsGo, List.isEmpty_iff, h]

/-- Splitting is a left inverse of the comma join on non-empty lists of
non-empty comma-free fragments. -/
theorem frags_joinComma : ∀ (l : List Str), l ≠ [] →
    (∀ s ∈ l, s ≠ [] ∧ ',' ∉ s) → frags (joinComma l) = l
  | [], hne, _ => absurd rfl hne
  | [a], _, h => by
    have ha := h a (List.mem_cons_self a [])
    rw [joinComma_single, frags_eq_fragsGo a ha.1]
    have h2 := fragsGo_append a ha.2 [] []
    simp only [List.append_nil] at h2
    rw [h2]
    simp [fragsGo]
  | a :: b :: l', _, h => by
    have ha := h a (List.mem_cons_self _ _)
    have hb := h b (List.mem_cons_of_mem a (List.mem_cons_self _ _))
    have hrest : joinComma (b :: l') ≠ [] := joinComma_ne_nil b l' hb.1
    have ih := frags_joinComma (b :: l') (List.cons_ne_nil b l')
      (fun s hs => h s (List.mem_cons_of_mem a hs))
    rw [joinComma_cons_cons,
      frags_eq_fragsGo _ (List.append_ne_nil_of_left_ne_nil ha.1 _),
      fragsGo_append a ha.2, List.append_nil, fragsGo_comma _ _ hrest,
      List.reverse_reverse, ← frags_eq_fragsGo _ hrest, ih]

/-! ### Membership in the aggregation hash table -/

theorem tIns_mem (t : List Str) (s x : Str) :
    x ∈ tIns t s ↔ x ∈ t ∨ x = s := by
  unfold tIns
  by_cases h : s ∈ t
  · simp only [if_pos h]
    constructor
    · exact Or.inl
    · rintro (h1 | rfl)
      · exact h1
      · exact h
  · simp [if_neg h]

theorem foldl_tIns_mem (l t : List Str) (x : Str) :
    x ∈ l.foldl tIns t ↔ x ∈ t ∨ x ∈ l := by
  induction l generalizing t with
  | nil => simp
  | cons a l ih => simp [List.foldl_cons, ih, tIns_mem, or_assoc]

theorem insert_thread_id_mem (t : List Str) (doc : Document) (x : Str) :
    x ∈ insert_thread_id t doc ↔ x ∈ t ∨ x ∈ frags (getValue doc 1) := by
  unfold insert_thread_id
  by_cases h : getValue doc 1 = [] <;> simp [h, foldl_tIns_mem, frags]

theorem foldl_insert_docs_mem {α : Type} (f : α → Document) (l : List α)
    (t : List Str) (x : Str) :
    x ∈ l.foldl (fun acc a => insert_thread_id acc (f a)) t ↔
      x ∈ t ∨ ∃ a ∈ l, x ∈ frags (getValue (f a) 1) := by
  induction l generalizing t with
  | nil => simp
  | cons a l ih => simp [List.foldl_cons, ih, insert_thread_id_mem, or_assoc]

theorem resolver_table_mem (db : Database) (ps : List Str)
    (mid : Option Str) (x : Str) :
    x ∈ resolver_table db ps mid ↔
      (∃ i ∈ child_docids db mid,
        x ∈ frags (getValue (find_message_by_docid db i) 1)) ∨
      (∃ p ∈ ps,
        x ∈ frags (getValue (find_message_by_message_id db p) 1)) := by
  unfold resolver_table
  rw [foldl_insert_docs_mem, foldl_insert_docs_mem]
  simp

/-! ### Posting lists -/

theorem postlist_mem (db : Database) (t : Str) (i : Nat) :
    i ∈ postlist db t ↔ i < db.docs.length ∧ t ∈ (dbDoc db i).terms := by
  simp [postlist, List.mem_filter, List.mem_range]

theorem postlist_nodup (db : Database) (t : Str) : (postlist db t).Nodup :=
  (List.nodup_range _).filter _

theorem dbDoc_mem (db : Database) (i : Nat) (h : i < db.docs.length) :
    dbDoc db i ∈ db.docs := by
  unfold dbDoc
  rw [List.getD_eq_getElem?_getD, List.getElem?_eq_getElem h]
  exact List.getElem_mem h

/-! ### Hex digits and thread id shape -/

theorem digitChar_hex (m : Nat) (h : m < 16) :
    isHexDigit (Nat.digitChar m) = true := by
  interval_cases m <;> decide

theorem hex8_length (n : Nat) : (hex8 n).length = 8 := by
  simp [hex8]

theorem hex8_hex (n : Nat) : ∀ c ∈ hex8 n, isHexDigit c = true := by
  intro c hc
  simp only [hex8, List.mem_map] at hc
  obtain ⟨i, _, rfl⟩ := hc
  exact digitChar_hex _ (Nat.mod_lt _ (by norm_num))

theorem thread_id_generate_length (r : Nat × Nat × Nat × Nat) :
    (thread_id_generate r).length = 32 := by
  simp [thread_id_generate, List.length_append, hex8_length]

theorem thread_id_generate_hex (r : Nat × Nat × Nat × Nat) :
    ∀ c ∈ thread_id_generate r, isHexDigit c = true := by
  intro c hc
  unfold thread_id_generate at hc
  rcases List.mem_append.mp hc with h1 | h2
  · rcases List.mem_append.mp h1 with h3 | h4
    · rcases List.mem_append.mp h3 with h5 | h6
      · exact hex8_hex _ _ h5
      · exact hex8_hex _ _ h6
    · exact hex8_hex _ _ h4
  · exact hex8_hex _ _ h2

theorem thread_id_generate_isHexId32 (r : Nat × Nat × Nat × Nat) :
    isHexId32 (thread_id_generate r) = true := by
  simp [isHexId32, Bool.and_eq_true, beq_iff_eq, List.all_eq_true,
    thread_id_generate_length]
  exact thread_id_generate_hex r

theorem isHexId32_ne_nil (s : Str) (h : isHexId32 s = true) : s ≠ [] := by
  intro hnil
  rw [hnil] at h
  simp [isHexId32] at h

theorem isHexId32_no_comma (s : Str) (h : isHexId32 s = true) : ',' ∉ s := by
  intro hm
  simp only [isHexId32, Bool.and_eq_true, List.all_eq_true] at h
  have := h.2 ',' hm
  simp [isHexDigit] at this

/-! ### Slot-1 well-formedness -/

theorem getValue_mem (doc : Document) (slot : Nat)
    (h : getValue doc slot ≠ []) :
    (slot, getValue doc slot) ∈ doc.values := by
  rcases hfind : doc.values.find? (fun p => p.fst = slot) with _ | p
  · simp [getValue, hfind] at h
  · have hp : p.fst = slot := by simpa using List.find?_some hfind
    have hmem := List.mem_of_find?_eq_some hfind
    have hv : getValue doc slot = p.snd := by simp [getValue, hfind]
    rw [hv, ← hp]
    exact hmem

theorem Slot1WF_frags_hex (doc : Document) (hwf : Slot1WF doc) :
    ∀ x ∈ frags (getValue doc 1), isHexId32 x = true := by
  intro x hx
  by_cases h : getValue doc 1 = []
  · rw [h] at hx
    simp [frags] at hx
  · obtain ⟨l, hlne, hlhex, hval⟩ := hwf _ (getValue_mem doc 1 h)
    rw [hval, frags_joinComma l hlne
      (fun s hs => ⟨isHexId32_ne_nil s (hlhex s hs),
        isHexId32_no_comma s (hlhex s hs)⟩)] at hx
    exact hlhex x hx

theorem resolver_table_hex (db : Database) (hdb : DbWF db)
    (ps : List Str) (mid : Option Str) :
    ∀ x ∈ resolver_table db ps mid, isHexId32 x = true := by
  intro x hx
  rw [resolver_table_mem] at hx
  rcases hx with ⟨i, hi, hx⟩ | ⟨p, _, hx⟩
  · have hi2 := (postlist_mem db _ i).mp hi
    exact Slot1WF_frags_hex _ (hdb _ (dbDoc_mem db i hi2.1)) x hx
  · unfold find_message_by_message_id at hx
    rcases hpl : postlist db (prefix_of "msgid".data ++ p) with _ | ⟨i, rest⟩
    · rw [hpl] at hx
      simp [getValue, frags] at hx
    · rw [hpl] at hx
      have hi : i ∈ postlist db (prefix_of "msgid".data ++ p) := by
        rw [hpl]; exact List.mem_cons_self i rest
      have hi2 := (postlist_mem db _ i).mp hi
      exact Slot1WF_frags_hex _ (hdb _ (dbDoc_mem db i hi2.1)) x hx

/-! ### Term encoder lemmas -/

theorem prefix_of_ref : prefix_of ['r', 'e', 'f'] = ['R'] := by decide

theorem prefix_of_msgid : prefix_of ['m', 's', 'g', 'i', 'd'] = ['Q'] := by
  decide

theorem prefix_of_thread : prefix_of ['t', 'h', 'r', 'e', 'a', 'd'] = ['H'] := by
  decide

theorem addTermRaw_values (doc : Document) (t : Str) :
    (addTermRaw doc t).values = doc.values := by
  unfold addTermRaw
  split <;> rfl

theorem addTermRaw_data (doc : Document) (t : Str) :
    (addTermRaw doc t).data = doc.data := by
  unfold addTermRaw
  split <;> rfl

theorem addTermRaw_mem (doc : Document) (t x : Str) :
    x ∈ (addTermRaw doc t).terms ↔ x ∈ doc.terms ∨ x = t := by
  unfold addTermRaw
  by_cases h : t ∈ doc.terms
  · simp only [if_pos h]
    constructor
    · exact Or.inl
    · rintro (h1 | rfl)
      · exact h1
      · exact h
  · simp [if_neg h]

theorem add_term_none (doc : Document) (nm : Str) :
    add_term doc nm none = doc := rfl

theorem add_term_values (doc : Document) (nm : Str) (v : Option Str) :
    (add_term doc nm v).values = doc.values := by
  cases v with
  | none => rfl
  | some v =>
    simp only [add_term]
    split
    · exact addTermRaw_values _ _
    · rfl

theorem add_term_data (doc : Document) (nm : Str) (v : Option Str) :
    (add_term doc nm v).data = doc.data := by
  cases v with
  | none => rfl
  | some v =>
    simp only [add_term]
    split
    · exact addTermRaw_data _ _
    · rfl

theorem add_term_mem (doc : Document) (nm v x : Str) :
    x ∈ (add_term doc nm (some v)).terms ↔ x ∈ doc.terms ∨
      (x = prefix_of nm ++ v ∧
        (prefix_of nm ++ v).length ≤ NOTMUCH_MAX_TERM) := by
  simp only [add_term]
  split
  · next h =>
    rw [addTermRaw_mem]
    constructor
    · rintro (h1 | rfl)
      · exact Or.inl h1
      · exact Or.inr ⟨rfl, h⟩
    · rintro (h1 | ⟨rfl, -⟩)
      · exact Or.inl h1
      · exact Or.inr rfl
  · next h =>
    constructor
    · exact Or.inl
    · rintro (h1 | ⟨rfl, hlen⟩)
      · exact h1
      · exact absurd hlen h

theorem foldl_add_term_values (l : List Str) (nm : Str) (doc : Document) :
    (l.foldl (fun d p => add_term d nm (some p)) doc).values = doc.values := by
  induction l generalizing doc with
  | nil => rfl
  | cons a l ih => simp [List.foldl_cons, ih, add_term_values]

theorem foldl_add_term_mem (l : List Str) (nm : Str) (doc : Document)
    (x : Str) :
    x ∈ (l.foldl (fun d p => add_term d nm (some p)) doc).terms ↔
      x ∈ doc.terms ∨ ∃ p ∈ l, x = prefix_of nm ++ p ∧
        (prefix_of nm ++ p).length ≤ NOTMUCH_MAX_TERM := by
  induction l generalizing doc with
  | nil => simp
  | cons a l ih => simp [List.foldl_cons, ih, add_term_mem, or_assoc]

theorem addValue_terms (doc : Document) (s : Nat) (v : Str) :
    (addValue doc s v).terms = doc.terms := rfl

theorem addValue_values (doc : Document) (s : Nat) (v : Str) :
    (addValue doc s v).values = (s, v) :: doc.values := rfl

/-! ### The document built by add_message -/

theorem buildDocument_getValue1 (e : List Str → List Str) (db : Database)
    (fn : Str) (msg : Message) (rand : Nat × Nat × Nat × Nat) :
    getValue (buildDocument e db fn msg rand) 1 =
      (if find_thread_ids e db msg.parents msg.message_id = [] then
        match msg.message_id with
        | some _ => thread_id_generate rand
        | none => []
      else joinComma (find_thread_ids e db msg.parents msg.message_id)) := by
  cases hm : msg.message_id with
  | none =>
    by_cases h : find_thread_ids e db msg.parents none = [] <;>
      simp [buildDocument, hm, h, getValue, addValue, add_term_values,
        foldl_add_term_values, List.find?]
  | some mid =>
    by_cases h : find_thread_ids e db msg.parents (some mid) = [] <;>
      simp [buildDocument, hm, h, getValue, addValue, add_term_values,
        foldl_add_term_values, List.find?]

theorem buildDocument_values1_mem (e : List Str → List Str) (db : Database)
    (fn : Str) (msg : Message) (rand : Nat × Nat × Nat × Nat) (v : Str) :
    (1, v) ∈ (buildDocument e db fn msg rand).values ↔
      (find_thread_ids e db msg.parents msg.message_id ≠ [] ∧
        v = joinComma (find_thread_ids e db msg.parents msg.message_id)) ∨
      (find_thread_ids e db msg.parents msg.message_id = [] ∧
        msg.message_id ≠ none ∧ v = thread_id_generate rand) := by
  cases hm : msg.message_id with
  | none =>
    by_cases h : find_thread_ids e db msg.parents none = [] <;>
      simp [buildDocument, hm, h, addValue, add_term_values,
        foldl_add_term_values]
  | some mid =>
    by_cases h : find_thread_ids e db msg.parents (some mid) = [] <;>
      simp [buildDocument, hm, h, addValue, add_term_values,
        foldl_add_term_values]

theorem buildDocument_terms_mem (e : List Str → List Str) (db : Database)
    (fn : Str) (msg : Message) (rand : Nat × Nat × Nat × Nat) (x : Str) :
    x ∈ (buildDocument e db fn msg rand).terms ↔
      (∃ p ∈ msg.parents, x = 'R' :: p ∧
        ('R' :: p).length ≤ NOTMUCH_MAX_TERM) ∨
      (∃ mid, msg.message_id = some mid ∧ x = 'Q' :: mid ∧
        ('Q' :: mid).length ≤ NOTMUCH_MAX_TERM) ∨
      (find_thread_ids e db msg.parents msg.message_id ≠ [] ∧
        ∃ tid ∈ find_thread_ids e db msg.parents msg.message_id,
          x = 'H' :: tid ∧ ('H' :: tid).length ≤ NOTMUCH_MAX_TERM) ∨
      (find_thread_ids e db msg.parents msg.message_id = [] ∧
        msg.message_id ≠ none ∧ x = 'H' :: thread_id_generate rand) := by
  cases hm : msg.message_id with
  | none =>
    by_cases h : find_thread_ids e db msg.parents none = [] <;>
      simp [buildDocument, hm, h, addValue_terms, add_term_mem,
        foldl_add_term_mem, prefix_of_ref, prefix_of_msgid, prefix_of_thread,
        thread_id_generate_length, NOTMUCH_MAX_TERM, Nat.add_comm, or_assoc]
  | some mid =>
    by_cases h : find_thread_ids e db msg.parents (some mid) = [] <;>
      simp [buildDocument, hm, h, addValue_terms, add_term_mem,
        foldl_add_term_mem, prefix_of_ref, prefix_of_msgid, prefix_of_thread,
        thread_id_generate_length, NOTMUCH_MAX_TERM, Nat.add_comm, or_assoc]

/-! ### Corpus traces -/

theorem take_append_le {α : Type} (l l' : List α) (k : Nat)
    (hk : k ≤ l.length) : (l ++ l').take k = l.take k := by
  induction l generalizing k with
  | nil =>
    simp only [List.length_nil, Nat.le_zero] at hk
    simp [hk]
  | cons a l ih =>
    cases k with
    | zero => rfl
    | succ k =>
      simp only [List.cons_append, List.take_succ_cons]
      rw [ih k (Nat.succ_le_succ_iff.mp hk)]

theorem stepDb_docs (e : List Str → List Str) (db : Database) (i : Ingest) :
    (stepDb e db i).docs =
      db.docs ++ [buildDocument e db i.filename i.msg i.rand] := rfl

theorem runTrace_append (e : List Str → List Str) (inputs : List Ingest)
    (i : Ingest) :
    runTrace e (inputs ++ [i]) = stepDb e (runTrace e inputs) i := by
  simp [runTrace, List.foldl_append]

theorem runTrace_length (e : List Str → List Str) (inputs : List Ingest) :
    (runTrace e inputs).docs.length = inputs.length := by
  induction inputs using List.reverseRecOn with
  | nil => rfl
  | append_singleton l a ih =>
    rw [runTrace_append, stepDb_docs]
    simp [ih]

theorem runTrace_take (e : List Str → List Str) (inputs : List Ingest)
    (k : Nat) (hk : k ≤ inputs.length) :
    (runTrace e inputs).docs.take k = (runTrace e (inputs.take k)).docs := by
  induction inputs using List.reverseRecOn with
  | nil =>
    simp at hk
    simp [hk]
    rfl
  | append_singleton l a ih =>
    rcases Nat.lt_or_ge k (l.length + 1) with hlt | hge
    · have hk2 : k ≤ l.length := Nat.lt_succ_iff.mp hlt
      rw [runTrace_append, stepDb_docs]
      rw [take_append_le _ _ _ (by rw [runTrace_length]; exact hk2)]
      rw [ih hk2]
      rw [take_append_le _ _ _ hk2]
    · have hk2 : k = l.length + 1 := by
        simp only [List.length_append, List.length_cons, List.length_nil] at hk
        omega
      subst hk2
      rw [List.take_of_length_le (by rw [runTrace_length]; simp),
        List.take_of_length_le (by simp)]

theorem runTrace_doc (e : List Str → List Str) (inputs : List Ingest)
    (k : Nat) (hk : k < inputs.length) :
    dbDoc (runTrace e inputs) k =
      buildDocument e (runTrace e (inputs.take k))
        (inputs.getD k default).filename (inputs.getD k default).msg
        (inputs.getD k default).rand := by
  induction inputs using List.reverseRecOn with
  | nil => simp at hk
  | append_singleton l a ih =>
    rcases Nat.lt_or_ge k l.length with hlt | hge
    · have h1 : dbDoc (runTrace e (l ++ [a])) k = dbDoc (runTrace e l) k := by
        unfold dbDoc
        rw [runTrace_append, stepDb_docs,
          List.getD_append _ _ _ _ (by rw [runTrace_length]; exact hlt)]
      have h2 : (l ++ [a]).take k = l.take k :=
        take_append_le _ _ _ (Nat.le_of_lt hlt)
      have h3 : (l ++ [a]).getD k default = l.getD k default :=
        List.getD_append _ _ _ _ hlt
      rw [h1, h2, h3, ih hlt]
    · have hk2 : k = l.length := by
        simp only [List.length_append, List.length_cons, List.length_nil] at hk
        omega
      subst hk2
      unfold dbDoc
      rw [runTrace_append, stepDb_docs]
      have hlen : (runTrace e l).docs.length = l.length := runTrace_length e l
      rw [← hlen]
      rw [List.getD_eq_getElem?_getD, List.getElem?_concat_length]
      have h2 : (l ++ [a]).take (runTrace e l).docs.length = l := by
        rw [hlen, List.take_left]
      have h3 : (l ++ [a]).getD (runTrace e l).docs.length default = a := by
        rw [hlen, List.getD_eq_getElem?_getD, List.getElem?_concat_length]
        rfl
      rw [h2, h3]
      rfl

/-! ### The slot-1 invariant along every trace -/

theorem find_thread_ids_hex (e : List Str → List Str) (db : Database)
    (ps : List Str) (mid : Option Str) (he : EnumOk e) (hdb : DbWF db) :
    ∀ x ∈ find_thread_ids e db ps mid, isHexId32 x = true := by
  intro x hx
  exact resolver_table_hex db hdb ps mid x ((he _).mem_iff.mp hx)

theorem buildDocument_Slot1WF (e : List Str → List Str) (db : Database)
    (fn : Str) (msg : Message) (rand : Nat × Nat × Nat × Nat)
    (he : EnumOk e) (hdb : DbWF db) :
    Slot1WF (buildDocument e db fn msg rand) := by
  intro v hv
  rw [buildDocument_values1_mem] at hv
  rcases hv with ⟨hne, rfl⟩ | ⟨-, -, rfl⟩
  · exact ⟨find_thread_ids e db msg.parents msg.message_id, hne,
      fun s hs => find_thread_ids_hex e db _ _ he hdb s hs, rfl⟩
  · exact ⟨[thread_id_generate rand], List.cons_ne_nil _ _,
      by
        intro s hs
        rw [List.mem_singleton] at hs
        rw [hs]
        exact thread_id_generate_isHexId32 rand,
      (joinComma_single _).symm⟩

theorem runTrace_DbWF (e : List Str → List Str) (inputs : List Ingest)
    (he : EnumOk e) : DbWF (runTrace e inputs) := by
  induction inputs using List.reverseRecOn with
  | nil => intro doc hdoc; simp [runTrace] at hdoc
  | append_singleton l a ih =>
    intro doc hdoc
    rw [runTrace_append, stepDb_docs, List.mem_append] at hdoc
    rcases hdoc with hdoc | hdoc
    · exact ih doc hdoc
    · rw [List.mem_singleton] at hdoc
      rw [hdoc]
      exact buildDocument_Slot1WF e _ _ _ _ he ih

/-! ### The hash table holds the discovery-order de-duplication -/

theorem foldl_tIns_dedup (xs : List Str) : ∀ (acc seen : List Str),
    (∀ x, x ∈ acc ↔ x ∈ seen) →
    xs.foldl tIns acc = acc ++ dedupFirstGo seen xs := by
  induction xs with
  | nil =>
    intro acc seen _
    simp [dedupFirstGo]
  | cons a xs ih =>
    intro acc seen h
    by_cases ha : a ∈ seen
    · have ha2 : a ∈ acc := (h a).mpr ha
      simp only [List.foldl_cons, tIns, if_pos ha2, dedupFirstGo, if_pos ha]
      exact ih acc seen h
    · have ha2 : a ∉ acc := fun hx => ha ((h a).mp hx)
      simp only [List.foldl_cons, tIns, if_neg ha2, dedupFirstGo, if_neg ha]
      rw [ih (acc ++ [a]) (a :: seen)
        (by intro x; simp [List.mem_append, List.mem_cons, h x, or_comm])]
      simp [List.append_assoc]

theorem insert_thread_id_eq_foldl (t : List Str) (doc : Document) :
    insert_thread_id t doc = (frags (getValue doc 1)).foldl tIns t := by
  unfold insert_thread_id
  by_cases h : getValue doc 1 = [] <;> simp [h, frags]

theorem foldl_insert_docs_eq {α : Type} (f : α → Document) (l : List α)
    (t : List Str) :
    l.foldl (fun acc a => insert_thread_id acc (f a)) t =
      ((l.map (fun a => frags (getValue (f a) 1))).flatten).foldl tIns t := by
  induction l generalizing t with
  | nil => rfl
  | cons a l ih =>
    simp only [List.foldl_cons, List.map_cons, List.flatten_cons,
      List.foldl_append]
    rw [insert_thread_id_eq_foldl]
    exact ih _

/-- The key set of the aggregation hash table is exactly the first-
occurrence de-duplication of the discovery-order id sequence. -/
theorem resolver_table_eq_dedup (db : Database) (ps : List Str)
    (mid : Option Str) :
    resolver_table db ps mid = dedupFirst (discoverySeq db ps mid) := by
  unfold resolver_table discoverySeq dedupFirst
  rw [foldl_insert_docs_eq, foldl_insert_docs_eq, ← List.foldl_append]
  rw [foldl_tIns_dedup _ [] [] (fun x => Iff.rfl)]
  simp

/-! ### The first document in posting-list order -/

theorem filter_range_head (n b : Nat) (p : Nat → Bool) (hb : p b = true)
    (hmin : ∀ j, j < b → p j = false) (hn : b < n) :
    ((List.range n).filter p).head? = some b := by
  have hn2 : b + (n - b) = n := Nat.add_sub_cancel' (Nat.le_of_lt hn)
  have h1 : List.range n = List.range b ++ (List.range (n - b)).map (b + ·) := by
    rw [← hn2, List.range_add]
    simp
  rw [h1, List.filter_append]
  have h2 : (List.range b).filter p = [] := by
    rw [List.filter_eq_nil_iff]
    intro a ha
    simp [hmin a (List.mem_range.mp ha)]
  have h3 : n - b ≠ 0 := Nat.sub_ne_zero_of_lt hn
  obtain ⟨m, hm⟩ := Nat.exists_eq_succ_of_ne_zero h3
  rw [h2, hm, List.range_succ_eq_map]
  simp [hb]

theorem find_message_by_message_id_eq (db : Database) (X : Str) (b : Nat)
    (hlen : b < db.docs.length) (hb : ('Q' :: X) ∈ (dbDoc db b).terms)
    (hmin : ∀ j, j < b → ('Q' :: X) ∉ (dbDoc db j).terms) :
    find_message_by_message_id db X = dbDoc db b := by
  have hterm : prefix_of "msgid".data ++ X = 'Q' :: X := by
    have h5 : "msgid".data = ['m', 's', 'g', 'i', 'd'] := by decide
    rw [h5, prefix_of_msgid]
    rfl
  unfold find_message_by_message_id
  rw [hterm]
  have hhead : (postlist db ('Q' :: X)).head? = some b := by
    unfold postlist
    exact filter_range_head _ b _ (by simp [hb])
      (fun j hj => by simp [hmin j hj]) (by simpa [dbDoc] using hlen)
  rcases hpl : postlist db ('Q' :: X) with _ | ⟨i, rest⟩
  · rw [hpl] at hhead
    simp at hhead
  · rw [hpl] at hhead
    simp at hhead
    subst hhead
    rfl

/-! ### Further helpers for the claim proofs -/

theorem isHexId32_length (s : Str) (h : isHexId32 s = true) :
    s.length = 32 := by
  simp only [isHexId32, Bool.and_eq_true, beq_iff_eq] at h
  exact h.1

theorem Slot1WF_frags (doc : Document) (hwf : Slot1WF doc)
    (h : getValue doc 1 ≠ []) :
    frags (getValue doc 1) ≠ [] ∧
    ∀ x ∈ frags (getValue doc 1), isHexId32 x = true := by
  obtain ⟨l, hlne, hlhex, hval⟩ := hwf _ (getValue_mem doc 1 h)
  have heq : frags (getValue doc 1) = l := by
    rw [hval]
    exact frags_joinComma l hlne (fun s hs =>
      ⟨isHexId32_ne_nil s (hlhex s hs), isHexId32_no_comma s (hlhex s hs)⟩)
  rw [heq]
  exact ⟨hlne, hlhex⟩

theorem getD_take {α : Type} (l : List α) (n i : Nat) (d : α) (h : i < n) :
    (l.take n).getD i d = l.getD i d := by
  rw [List.getD_eq_getElem?_getD, List.getD_eq_getElem?_getD,
    List.getElem?_take_of_lt h]

theorem dbDoc_runTrace_take (e : List Str → List Str)
    (inputs : List Ingest) (k j : Nat) (hk : k ≤ inputs.length)
    (hj : j < k) :
    dbDoc (runTrace e (inputs.take k)) j = dbDoc (runTrace e inputs) j := by
  unfold dbDoc
  rw [← runTrace_take e inputs k hk, getD_take _ _ _ _ hj]

theorem refChildTerm (X : Str) :
    prefix_of "ref".data ++ midCStr (some X) = 'R' :: X := by
  have h5 : "ref".data = ['r', 'e', 'f'] := by decide
  rw [h5, prefix_of_ref]
  rfl

theorem joinComma_frags_of_hex (tids : List Str) (hne : tids ≠ [])
    (hhex : ∀ x ∈ tids, isHexId32 x = true) :
    frags (joinComma tids) = tids :=
  frags_joinComma tids hne (fun s hs =>
    ⟨isHexId32_ne_nil s (hhex s hs), isHexId32_no_comma s (hhex s hs)⟩)

theorem joinComma_hex_ne_nil (tids : List Str) (hne : tids ≠ [])
    (hhex : ∀ x ∈ tids, isHexId32 x = true) : joinComma tids ≠ [] := by
  rcases tids with _ | ⟨t, rest⟩
  · exact absurd rfl hne
  · exact joinComma_ne_nil t rest
      (isHexId32_ne_nil t (hhex t (List.mem_cons_self t rest)))

theorem buildDocument_getValue0 (e : List Str → List Str) (db : Database)
    (fn : Str) (msg : Message) (rand : Nat × Nat × Nat × Nat) :
    getValue (buildDocument e db fn msg rand) 0 =
      (match msg.message_id with
       | some mid => mid
       | none => []) := by
  cases hm : msg.message_id with
  | none =>
    by_cases h : find_thread_ids e db msg.parents none = [] <;>
      simp [buildDocument, hm, h, getValue, addValue, add_term_values,
        foldl_add_term_values, List.find?]
  | some mid =>
    by_cases h : find_thread_ids e db msg.parents (some mid) = [] <;>
      simp [buildDocument, hm, h, getValue, addValue, add_term_values,
        foldl_add_term_values, List.find?]

/-! ### Slot-1 rewriting of a non-first duplicate (for C10) -/

/-- Replace the slot-1 value of document j (terms untouched). -/
def setSlot1 (db : Database) (j : Nat) (v : Str) : Database :=
  ⟨db.docs.set j (addValue (dbDoc db j) 1 v)⟩

theorem setSlot1_terms (db : Database) (j : Nat) (v : Str) (i : Nat) :
    (dbDoc (setSlot1 db j v) i).terms = (dbDoc db i).terms := by
  unfold setSlot1 dbDoc
  simp only [List.getD_eq_getElem?_getD]
  by_cases hij : i = j
  · subst hij
    by_cases hlen : i < db.docs.length
    · rw [List.getElem?_set_self hlen]
      cases hx : db.docs[i]? with
      | none =>
        rw [List.getElem?_eq_none_iff] at hx
        omega
      | some d =>
        have hd : db.docs.getD i {} = d := by
          rw [List.getD_eq_getElem?_getD, hx]
          rfl
        simp [hx, hd, addValue]
    · have hge : db.docs.length ≤ i := Nat.le_of_not_lt hlen
      rw [List.getElem?_eq_none (by simpa [List.length_set] using hge),
        List.getElem?_eq_none (by simpa using hge)]
  · rw [List.getElem?_set_ne (fun h => hij h.symm)]

theorem setSlot1_doc_ne (db : Database) (j : Nat) (v : Str) (i : Nat)
    (hij : i ≠ j) : dbDoc (setSlot1 db j v) i = dbDoc db i := by
  unfold setSlot1 dbDoc
  simp only [List.getD_eq_getElem?_getD]
  rw [List.getElem?_set_ne (fun h => hij h.symm)]

theorem setSlot1_postlist (db : Database) (j : Nat) (v : Str) (t : Str) :
    postlist (setSlot1 db j v) t = postlist db t := by
  unfold postlist
  have hlen : (setSlot1 db j v).docs.length = db.docs.length := by
    simp [setSlot1]
  rw [hlen]
  exact List.filter_congr (fun i _ => by rw [setSlot1_terms])

/-! ## Claim C6: the term encoder contract -/

/-- C6: for every call add_term(doc, field, value), a null value leaves
the document unchanged; otherwise the term prefix(field)++value is in the
resulting term set exactly when it was already present or its length is
within the 245-byte cap, so an overlong term is dropped entirely and
never stored truncated; values and payload are never touched. -/
theorem C6_add_term_contract (doc : Document) (nm v : Str) :
    add_term doc nm none = doc ∧
    (∀ x : Str, x ∈ (add_term doc nm (some v)).terms ↔
      x ∈ doc.terms ∨ (x = prefix_of nm ++ v ∧
        (prefix_of nm ++ v).length ≤ NOTMUCH_MAX_TERM)) ∧
    (add_term doc nm (some v)).values = doc.values ∧
    (add_term doc nm (some v)).data = doc.data :=
  ⟨rfl, fun x => add_term_mem doc nm v x, add_term_values _ _ _,
    add_term_data _ _ _⟩

set_option maxRecDepth 4000 in
/-- Witness for C6 at concrete inputs: a 4-byte msgid term is stored, a
250-byte value is dropped entirely. -/
theorem C6_witness :
    (add_term {} "msgid".data none = ({} : Document)) ∧
    ('Q' :: "abc".data) ∈
      (add_term {} "msgid".data (some "abc".data)).terms ∧
    (add_term {} "msgid".data (some (List.replicate 250 'a'))).terms = [] :=
  ⟨(C6_add_term_contract {} "msgid".data []).1,
    by
      have h := ((C6_add_term_contract {} "msgid".data "abc".data).2.1
        ('Q' :: "abc".data)).mpr
      apply h
      right
      constructor
      · decide
      · decide,
    by decide⟩

/-! ## Claim C4: atomicity of add_message -/

/-- C4: with the message file readable, a backend exception during
add_message leaves the index in its pre-call state and returns the
XAPIAN_EXCEPTION status; without an exception exactly one document is
appended and SUCCESS is returned. -/
theorem C4_add_message_atomic (e : List Str → List Str) (db : Database)
    (fn : Str) (msg : Message) (rand : Nat × Nat × Nat × Nat) :
    notmuch_database_add_message e db fn msg rand true true =
      (AddOutcome.returned db Status.XAPIAN_EXCEPTION, [Diag.xapianError]) ∧
    ∃ d : Document,
      notmuch_database_add_message e db fn msg rand true false =
        (AddOutcome.returned ⟨db.docs ++ [d]⟩ Status.SUCCESS, []) :=
  ⟨rfl, ⟨buildDocument e db fn msg rand, rfl⟩⟩

/-! ## Claim C9: unreadable message file is fatal to the process -/

/-- C9: when the message file cannot be opened, add_message prints a
diagnostic and exits the process with code 1 instead of returning a
status. -/
theorem C9_file_open_fatal (e : List Str → List Str) (db : Database)
    (fn : Str) (msg : Message) (rand : Nat × Nat × Nat × Nat) (exn : Bool) :
    notmuch_database_add_message e db fn msg rand false exn =
      (AddOutcome.exited 1, [Diag.errorOpening]) := rfl

/-! ## Claim C8: database open on backend failure -/

/-- Oracle: the path exists and is a directory, mkdir succeeds, but the
backend refuses to open the index. -/
def fsBackendFail : FsModel :=
  { statOk := fun _ => true, isDir := fun _ => true,
    mkdirOk := fun _ => true, xapianOpenOk := fun _ => false }

/-- C8 (code bug): when the backend index fails to open, the source
prints the backend diagnostic but still returns a NON-null handle whose
backend field was never assigned, instead of the null handle the claim
requires. -/
theorem C8_open_backend_failure_not_null :
    notmuch_database_open fsBackendFail "p".data =
      (some { path := "p".data, xapianInit := false }, [Diag.xapianError]) ∧
    (notmuch_database_open fsBackendFail "p".data).fst ≠ none := by
  constructor
  · rfl
  · intro h
    simp [notmuch_database_open, fsBackendFail] at h

/-! ## Claim C5: behaviour on an empty thread resolution -/

/-- C5: when the resolver finds nothing: with a Message-ID present a
fresh ThreadId is minted, the document carries exactly that one
thread-prefixed term and that id as slot 1; with no Message-ID the
committed document has no msgid term, no thread term, empty slot 0 and
empty slot 1, and the call still returns SUCCESS. -/
theorem C5_empty_resolution (e : List Str → List Str) (db : Database)
    (fn : Str) (parents : List Str) (date : Int)
    (rand : Nat × Nat × Nat × Nat) :
    (∀ mid : Str, find_thread_ids e db parents (some mid) = [] →
      (∀ x : Str,
        (x ∈ (buildDocument e db fn ⟨some mid, parents, date⟩ rand).terms ∧
          x.head? = some 'H') ↔ x = 'H' :: thread_id_generate rand) ∧
      getValue (buildDocument e db fn ⟨some mid, parents, date⟩ rand) 1 =
        thread_id_generate rand) ∧
    (find_thread_ids e db parents none = [] →
      (∀ t ∈ (buildDocument e db fn ⟨none, parents, date⟩ rand).terms,
        t.head? ≠ some 'Q' ∧ t.head? ≠ some 'H') ∧
      getValue (buildDocument e db fn ⟨none, parents, date⟩ rand) 0 = [] ∧
      getValue (buildDocument e db fn ⟨none, parents, date⟩ rand) 1 = [] ∧
      notmuch_database_add_message e db fn ⟨none, parents, date⟩ rand
          true false =
        (AddOutcome.returned
          ⟨db.docs ++ [buildDocument e db fn ⟨none, parents, date⟩ rand]⟩
          Status.SUCCESS, [])) := by
  constructor
  · intro mid h
    constructor
    · intro x
      constructor
      · rintro ⟨hx, hhead⟩
        rw [buildDocument_terms_mem] at hx
        dsimp only at hx
        rcases hx with ⟨p, -, rfl, -⟩ | ⟨m, -, rfl, -⟩ | ⟨hne, -⟩ |
          ⟨-, -, rfl⟩
        · simp at hhead
        · simp at hhead
        · exact absurd h hne
        · rfl
      · rintro rfl
        constructor
        · rw [buildDocument_terms_mem]
          exact Or.inr (Or.inr (Or.inr ⟨h, by simp, rfl⟩))
        · rfl
    · rw [buildDocument_getValue1]
      dsimp only
      rw [if_pos h]
  · intro h
    refine ⟨?_, ?_, ?_, rfl⟩
    · intro t ht
      rw [buildDocument_terms_mem] at ht
      dsimp only at ht
      rcases ht with ⟨p, -, rfl, -⟩ | ⟨m, hm, -, -⟩ | ⟨hne, -⟩ |
        ⟨-, hnone, -⟩
      · exact ⟨by simp, by simp⟩
      · exact absurd hm (by simp)
      · exact absurd h hne
      · exact absurd rfl hnone
    · rw [buildDocument_getValue0]
    · rw [buildDocument_getValue1]
      dsimp only
      rw [if_pos h]

/-- Witness for C5: both branches on the empty index. -/
theorem C5_witness :
    find_thread_ids id ⟨[]⟩ [] (some ['a']) = [] ∧
    getValue (buildDocument id ⟨[]⟩ [] ⟨some ['a'], [], 0⟩ (0, 0, 0, 0)) 1 =
      thread_id_generate (0, 0, 0, 0) ∧
    find_thread_ids id ⟨[]⟩ [] none = [] ∧
    getValue (buildDocument id ⟨[]⟩ [] ⟨none, [], 0⟩ (0, 0, 0, 0)) 1 = [] :=
  ⟨by decide,
    ((C5_empty_resolution id ⟨[]⟩ [] [] 0 (0, 0, 0, 0)).1 ['a']
      (by decide)).2,
    by decide,
    ((C5_empty_resolution id ⟨[]⟩ [] [] 0 (0, 0, 0, 0)).2
      (by decide)).2.2.1⟩

/-! ## Claim C1: slot-1 order is hash-table order, not discovery order -/

/-- C1 (amended): for every add_message call persisting a non-empty
thread set, slot 1 is the comma join of the hash-table key enumeration
of the resolved ids, and that enumeration is a permutation of the
de-duplicated discovery-order sequence (children in posting-list order,
then parents in header order, first occurrence kept). -/
theorem C1_slot1_hash_order (e : List Str → List Str) (db : Database)
    (fn : Str) (msg : Message) (rand : Nat × Nat × Nat × Nat)
    (he : EnumOk e)
    (hne : find_thread_ids e db msg.parents msg.message_id ≠ []) :
    getValue (buildDocument e db fn msg rand) 1 =
      joinComma (e (dedupFirst (discoverySeq db msg.parents msg.message_id))) ∧
    (e (dedupFirst (discoverySeq db msg.parents msg.message_id))).Perm
      (dedupFirst (discoverySeq db msg.parents msg.message_id)) := by
  constructor
  · rw [buildDocument_getValue1, if_neg hne]
    unfold find_thread_ids
    rw [resolver_table_eq_dedup]
  · exact he _

/-- One indexed child for the C1 witness. -/
def c1db : Database :=
  ⟨[{ data := [], terms := [['R', 'a']],
      values := [(1, thread_id_generate (0, 0, 0, 0))] }]⟩

/-- Witness for C1 (amended), with the identity enumeration. -/
theorem C1_witness :
    EnumOk id ∧
    find_thread_ids id c1db [] (some ['a']) ≠ [] ∧
    (getValue (buildDocument id c1db [] ⟨some ['a'], [], 0⟩ (0, 0, 0, 1)) 1 =
      joinComma (id (dedupFirst (discoverySeq c1db [] (some ['a'])))) ∧
    (id (dedupFirst (discoverySeq c1db [] (some ['a'])))).Perm
      (dedupFirst (discoverySeq c1db [] (some ['a'])))) :=
  ⟨fun l => List.Perm.refl l, by decide,
    C1_slot1_hash_order id c1db [] ⟨some ['a'], [], 0⟩ (0, 0, 0, 1)
      (fun l => List.Perm.refl l) (by decide)⟩

/-- First message of the C1 counterexample corpus. -/
def cxA : Ingest := ⟨"fa".data, ⟨some ['a'], [], 0⟩, (0, 0, 0, 1)⟩

/-- Second message of the C1 counterexample corpus. -/
def cxB : Ingest := ⟨"fb".data, ⟨some ['b'], [], 0⟩, (0, 0, 0, 2)⟩

/-- The index holding the two isolated messages. -/
def cxDb : Database := runTrace List.reverse [cxA, cxB]

/-- The merge message referencing both. -/
def cxC : Message := ⟨some ['c'], [['a'], ['b']], 0⟩

/-- Counterexample for C1 as stated: reversal is an admissible
g_hash_table_get_keys enumeration (a permutation of the key set), and
under it the thread-merge scenario of the spec stores slot 1 in an order
that is NOT the discovery order (children first, then parents in header
order, first occurrence kept). -/
theorem C1_counterexample :
    EnumOk List.reverse ∧
    getValue (buildDocument List.reverse cxDb "fc".data cxC (0, 0, 0, 3)) 1 ≠
      joinComma (dedupFirst (discoverySeq cxDb cxC.parents cxC.message_id)) :=
  ⟨fun l => List.reverse_perm l, by decide⟩

/-! ## Claim C3: thread term and slot 1 on every persisted document -/

/-- A message with no Message-ID and no references. -/
def c3NoMid : Ingest := ⟨"f".data, ⟨none, [], 0⟩, (0, 0, 0, 0)⟩

/-- Counterexample for C3 as stated: ingesting a message with no
Message-ID and no references succeeds and persists a document with no
terms at all (in particular no thread term) and an empty slot 1. -/
theorem C3_counterexample :
    (runTrace id [c3NoMid]).docs.length = 1 ∧
    (dbDoc (runTrace id [c3NoMid]) 0).terms = [] ∧
    getValue (dbDoc (runTrace id [c3NoMid]) 0) 1 = [] := by
  refine ⟨rfl, by decide, by decide⟩

/-- C3 (amended): every document persisted by add_message for a message
bearing a Message-ID, or whose thread resolution is non-empty, carries
at least one thread-prefixed term and a non-empty slot-1 value. -/
theorem C3_thread_term (e : List Str → List Str) (inputs : List Ingest)
    (fn : Str) (msg : Message) (rand : Nat × Nat × Nat × Nat)
    (he : EnumOk e)
    (h : msg.message_id ≠ none ∨
      find_thread_ids e (runTrace e inputs) msg.parents msg.message_id ≠ []) :
    (∃ t ∈ (buildDocument e (runTrace e inputs) fn msg rand).terms,
      t.head? = some 'H') ∧
    getValue (buildDocument e (runTrace e inputs) fn msg rand) 1 ≠ [] := by
  have hwf : DbWF (runTrace e inputs) := runTrace_DbWF e inputs he
  by_cases htids :
    find_thread_ids e (runTrace e inputs) msg.parents msg.message_id = []
  · have hmid : msg.message_id ≠ none := by
      rcases h with h | h
      · exact h
      · exact absurd htids h
    constructor
    · refine ⟨'H' :: thread_id_generate rand, ?_, rfl⟩
      rw [buildDocument_terms_mem]
      exact Or.inr (Or.inr (Or.inr ⟨htids, hmid, rfl⟩))
    · rw [buildDocument_getValue1, if_pos htids]
      cases hm : msg.message_id with
      | none => exact absurd hm hmid
      | some mid =>
        exact isHexId32_ne_nil _ (thread_id_generate_isHexId32 rand)
  · obtain ⟨t0, ht0⟩ := List.exists_mem_of_ne_nil _ htids
    have ht0hex := find_thread_ids_hex e _ _ _ he hwf t0 ht0
    have hlen : ('H' :: t0).length ≤ NOTMUCH_MAX_TERM := by
      simp [List.length_cons, isHexId32_length _ ht0hex, NOTMUCH_MAX_TERM]
    constructor
    · refine ⟨'H' :: t0, ?_, rfl⟩
      rw [buildDocument_terms_mem]
      exact Or.inr (Or.inr (Or.inl ⟨htids, t0, ht0, rfl, hlen⟩))
    · rw [buildDocument_getValue1, if_neg htids]
      exact joinComma_hex_ne_nil _ htids
        (find_thread_ids_hex e _ _ _ he hwf)

/-- Witness for C3 (amended) on the empty index. -/
theorem C3_witness :
    EnumOk id ∧
    ((⟨some ['a'], [], 0⟩ : Message).message_id ≠ none ∨
      find_thread_ids id (runTrace id [])
        (⟨some ['a'], [], 0⟩ : Message).parents
        (⟨some ['a'], [], 0⟩ : Message).message_id ≠ []) ∧
    ((∃ t ∈ (buildDocument id (runTrace id []) "f".data
        ⟨some ['a'], [], 0⟩ (0, 0, 0, 0)).terms, t.head? = some 'H') ∧
      getValue (buildDocument id (runTrace id []) "f".data
        ⟨some ['a'], [], 0⟩ (0, 0, 0, 0)) 1 ≠ []) :=
  ⟨fun l => List.Perm.refl l, Or.inl (by decide),
    C3_thread_term id [] "f".data ⟨some ['a'], [], 0⟩ (0, 0, 0, 0)
      (fun l => List.Perm.refl l) (Or.inl (by decide))⟩

/-! ## Claim C7: thread id and slot-1 format -/

/-- C7: every id the generator produces is exactly 32 lowercase hex
digits and holds no comma, and along any successful trace every slot-1
value stored by add_message is the comma join of a non-empty list of
such ids. -/
theorem C7_thread_id_format (r : Nat × Nat × Nat × Nat)
    (e : List Str → List Str) (inputs : List Ingest) (he : EnumOk e) :
    ((thread_id_generate r).length = 32 ∧
      (∀ c ∈ thread_id_generate r, isHexDigit c = true) ∧
      ',' ∉ thread_id_generate r) ∧
    (∀ doc ∈ (runTrace e inputs).docs, ∀ v : Str, (1, v) ∈ doc.values →
      ∃ l : List Str, l ≠ [] ∧ (∀ s ∈ l, isHexId32 s = true) ∧
        v = joinComma l) := by
  refine ⟨⟨thread_id_generate_length r, thread_id_generate_hex r,
    isHexId32_no_comma _ (thread_id_generate_isHexId32 r)⟩, ?_⟩
  intro doc hdoc v hv
  exact runTrace_DbWF e inputs he doc hdoc v hv

/-- An isolated ingest for the C7 witness. -/
def c7Ing : Ingest := ⟨"f".data, ⟨some ['a'], [], 0⟩, (1, 2, 3, 4)⟩

/-- Witness for C7: the minted id of the isolated-message scenario is
stored in slot 1 and has the required shape. -/
theorem C7_witness :
    EnumOk id ∧
    (1, thread_id_generate (1, 2, 3, 4)) ∈
      (dbDoc (runTrace id [c7Ing]) 0).values ∧
    (thread_id_generate (0, 0, 0, 0)).length = 32 ∧
    ∃ l : List Str, l ≠ [] ∧ (∀ s ∈ l, isHexId32 s = true) ∧
      thread_id_generate (1, 2, 3, 4) = joinComma l :=
  ⟨fun l => List.Perm.refl l, by decide,
    (C7_thread_id_format (0, 0, 0, 0) id [c7Ing]
      (fun l => List.Perm.refl l)).1.1,
    (C7_thread_id_format (0, 0, 0, 0) id [c7Ing]
      (fun l => List.Perm.refl l)).2
      (dbDoc (runTrace id [c7Ing]) 0) (by decide) _ (by decide)⟩

/-! ## Claim C10: duplicate msgid claimants after the first are ignored -/

theorem msgidTermEq (X : Str) : prefix_of "msgid".data ++ X = 'Q' :: X := by
  have h5 : "msgid".data = ['m', 's', 'g', 'i', 'd'] := by decide
  rw [h5, prefix_of_msgid]
  rfl

/-- C10: when several documents carry the msgid term of a parent, the
resolver reads slot 1 of only the first in posting-list order: the
lookup returns that document, and rewriting the slot-1 value of any
later duplicate (one not itself carrying the child lookup term) leaves
the resolved thread set unchanged. -/
theorem C10_duplicates_ignored (e : List Str → List Str) (db : Database)
    (X : Str) (mid : Option Str) (i j : Nat) (js : List Nat) (v : Str)
    (hpost : postlist db ('Q' :: X) = i :: js)
    (hj : j ∈ js)
    (hnoref : (prefix_of "ref".data ++ midCStr mid) ∉ (dbDoc db j).terms) :
    find_message_by_message_id db X = dbDoc db i ∧
    find_thread_ids e (setSlot1 db j v) [X] mid =
      find_thread_ids e db [X] mid := by
  have hji : j ≠ i := by
    have hnodup := postlist_nodup db ('Q' :: X)
    rw [hpost] at hnodup
    have hnoti := (List.nodup_cons.mp hnodup).1
    intro h
    exact hnoti (h ▸ hj)
  have hij : i ≠ j := fun h => hji h.symm
  have part1 : find_message_by_message_id db X = dbDoc db i := by
    unfold find_message_by_message_id
    rw [msgidTermEq, hpost]
    rfl
  have hfm : find_message_by_message_id (setSlot1 db j v) X =
      find_message_by_message_id db X := by
    unfold find_message_by_message_id
    rw [msgidTermEq, setSlot1_postlist, hpost]
    exact setSlot1_doc_ne db j v i hij
  refine ⟨part1, ?_⟩
  unfold find_thread_ids
  congr 1
  unfold resolver_table
  have hchild :
      (child_docids (setSlot1 db j v) mid).foldl
        (fun t i' => insert_thread_id t
          (find_message_by_docid (setSlot1 db j v) i')) [] =
      (child_docids db mid).foldl
        (fun t i' => insert_thread_id t (find_message_by_docid db i')) [] := by
    unfold child_docids
    rw [setSlot1_postlist]
    apply List.foldl_ext
    intro acc i' hi'
    have hi'j : i' ≠ j := by
      intro hcontr
      subst hcontr
      exact hnoref ((postlist_mem db _ i').mp hi').2
    unfold find_message_by_docid
    rw [setSlot1_doc_ne db j v i' hi'j]
  rw [hchild]
  simp only [List.foldl_cons, List.foldl_nil]
  rw [hfm]

/-- First claimant of msgid x for the C10 witness. -/
def c10doc0 : Document :=
  { data := [], terms := [['Q', 'x']],
    values := [(1, thread_id_generate (0, 0, 0, 1))] }

/-- Duplicate claimant of msgid x for the C10 witness. -/
def c10doc1 : Document :=
  { data := [], terms := [['Q', 'x']],
    values := [(1, thread_id_generate (0, 0, 0, 2))] }

/-- Index with a duplicated msgid for the C10 witness. -/
def c10db : Database := ⟨[c10doc0, c10doc1]⟩

/-- Witness for C10 on a two-document index with a duplicated msgid. -/
theorem C10_witness :
    postlist c10db ('Q' :: ['x']) = 0 :: [1] ∧
    1 ∈ [1] ∧
    (prefix_of "ref".data ++ midCStr (some ['c'])) ∉ (dbDoc c10db 1).terms ∧
    (find_message_by_message_id c10db ['x'] = dbDoc c10db 0 ∧
      find_thread_ids id (setSlot1 c10db 1 ['z']) [['x']] (some ['c']) =
        find_thread_ids id c10db [['x']] (some ['c'])) :=
  ⟨by decide, by decide, by decide,
    C10_duplicates_ignored id c10db ['x'] (some ['c']) 0 1 [1] ['z']
      (by decide) (by decide) (by decide)⟩

/-! ## Claim C2: referencing messages share a thread id -/

/-- C2 (amended): along any successful trace, if the document of message
A carries the ref term for MsgId X, the document of message B is the
first in posting-list order carrying the msgid term for X, and the
slot-1 value of A is non-empty, then A and B share a ThreadId,
regardless of the ingest order of A and B. -/
theorem C2_shared_thread_id (e : List Str → List Str)
    (inputs : List Ingest) (a b : Nat) (X : Str) (he : EnumOk e)
    (ha : a < inputs.length) (hb : b < inputs.length)
    (hrefA : ('R' :: X) ∈ (dbDoc (runTrace e inputs) a).terms)
    (hQb : ('Q' :: X) ∈ (dbDoc (runTrace e inputs) b).terms)
    (hQmin : ∀ j, j < b → ('Q' :: X) ∉ (dbDoc (runTrace e inputs) j).terms)
    (hA1 : getValue (dbDoc (runTrace e inputs) a) 1 ≠ []) :
    ∃ t : Str, t ∈ frags (getValue (dbDoc (runTrace e inputs) a) 1) ∧
      t ∈ frags (getValue (dbDoc (runTrace e inputs) b) 1) := by
  have hwf : DbWF (runTrace e inputs) := runTrace_DbWF e inputs he
  have hlen : (runTrace e inputs).docs.length = inputs.length :=
    runTrace_length e inputs
  have hdocA := runTrace_doc e inputs a ha
  have hdocB := runTrace_doc e inputs b hb
  -- A declared X as a parent
  have hXpar : X ∈ (inputs.getD a default).msg.parents := by
    rw [hdocA, buildDocument_terms_mem] at hrefA
    rcases hrefA with ⟨p, hp, hpe, -⟩ | ⟨m, -, hme, -⟩ | ⟨-, t, -, hte, -⟩ |
      ⟨-, -, hte⟩
    · injection hpe with h1 h2
      rw [h2]
      exact hp
    · injection hme with h1 h2
      exact absurd h1 (by decide)
    · injection hte with h1 h2
      exact absurd h1 (by decide)
    · injection hte with h1 h2
      exact absurd h1 (by decide)
  -- B claimed X as its Message-ID
  have hmidB : (inputs.getD b default).msg.message_id = some X := by
    rw [hdocB, buildDocument_terms_mem] at hQb
    rcases hQb with ⟨p, -, hpe, -⟩ | ⟨m, hm, hme, -⟩ | ⟨-, t, -, hte, -⟩ |
      ⟨-, -, hte⟩
    · injection hpe with h1 h2
      exact absurd h1 (by decide)
    · injection hme with h1 h2
      rw [← h2] at hm
      exact hm
    · injection hte with h1 h2
      exact absurd h1 (by decide)
    · injection hte with h1 h2
      exact absurd h1 (by decide)
  -- B has a non-empty slot 1 (it bears a Message-ID)
  have hB1 : getValue (dbDoc (runTrace e inputs) b) 1 ≠ [] := by
    rw [hdocB, buildDocument_getValue1]
    by_cases htids : find_thread_ids e (runTrace e (inputs.take b))
        (inputs.getD b default).msg.parents
        (inputs.getD b default).msg.message_id = []
    · rw [if_pos htids, hmidB]
      exact isHexId32_ne_nil _ (thread_id_generate_isHexId32 _)
    · rw [if_neg htids]
      exact joinComma_hex_ne_nil _ htids
        (find_thread_ids_hex e _ _ _ he (runTrace_DbWF e _ he))
  rcases Nat.lt_trichotomy a b with hab | heq | hba
  · -- A ingested first: the children loop of the later B reads A
    have hAagree : dbDoc (runTrace e (inputs.take b)) a =
        dbDoc (runTrace e inputs) a :=
      dbDoc_runTrace_take e inputs b a (Nat.le_of_lt hb) hab
    have hAmem : dbDoc (runTrace e inputs) a ∈ (runTrace e inputs).docs :=
      dbDoc_mem _ a (by rw [hlen]; exact ha)
    have hAfr := Slot1WF_frags _ (hwf _ hAmem) hA1
    obtain ⟨tA, htA⟩ := List.exists_mem_of_ne_nil _ hAfr.1
    have hchild : a ∈ child_docids (runTrace e (inputs.take b))
        (inputs.getD b default).msg.message_id := by
      unfold child_docids
      rw [hmidB, refChildTerm, postlist_mem]
      constructor
      · rw [runTrace_length, List.length_take]
        omega
      · rw [hAagree]
        exact hrefA
    have htab : tA ∈ resolver_table (runTrace e (inputs.take b))
        (inputs.getD b default).msg.parents
        (inputs.getD b default).msg.message_id := by
      rw [resolver_table_mem]
      left
      refine ⟨a, hchild, ?_⟩
      unfold find_message_by_docid
      rw [hAagree]
      exact htA
    have htids : tA ∈ find_thread_ids e (runTrace e (inputs.take b))
        (inputs.getD b default).msg.parents
        (inputs.getD b default).msg.message_id := (he _).mem_iff.mpr htab
    have htidsne := List.ne_nil_of_mem htids
    have hBfr : frags (getValue (dbDoc (runTrace e inputs) b) 1) =
        find_thread_ids e (runTrace e (inputs.take b))
          (inputs.getD b default).msg.parents
          (inputs.getD b default).msg.message_id := by
      rw [hdocB, buildDocument_getValue1, if_neg htidsne]
      exact joinComma_frags_of_hex _ htidsne
        (find_thread_ids_hex e _ _ _ he (runTrace_DbWF e _ he))
    exact ⟨tA, htA, by rw [hBfr]; exact htids⟩
  · -- the degenerate case A = B
    subst heq
    have hAmem : dbDoc (runTrace e inputs) a ∈ (runTrace e inputs).docs :=
      dbDoc_mem _ a (by rw [hlen]; exact ha)
    have hAfr := Slot1WF_frags _ (hwf _ hAmem) hA1
    obtain ⟨t, ht⟩ := List.exists_mem_of_ne_nil _ hAfr.1
    exact ⟨t, ht, ht⟩
  · -- B ingested first: the parent loop of the later A reads B
    have hBagree : dbDoc (runTrace e (inputs.take a)) b =
        dbDoc (runTrace e inputs) b :=
      dbDoc_runTrace_take e inputs a b (Nat.le_of_lt ha) hba
    have hBmem : dbDoc (runTrace e inputs) b ∈ (runTrace e inputs).docs :=
      dbDoc_mem _ b (by rw [hlen]; exact hb)
    have hBfr0 := Slot1WF_frags _ (hwf _ hBmem) hB1
    obtain ⟨tB, htB⟩ := List.exists_mem_of_ne_nil _ hBfr0.1
    have hfindB : find_message_by_message_id (runTrace e (inputs.take a)) X =
        dbDoc (runTrace e inputs) b := by
      rw [← hBagree]
      apply find_message_by_message_id_eq
      · rw [runTrace_length, List.length_take]
        omega
      · rw [hBagree]
        exact hQb
      · intro j hj
        rw [dbDoc_runTrace_take e inputs a j (Nat.le_of_lt ha)
          (Nat.lt_trans hj hba)]
        exact hQmin j hj
    have htab : tB ∈ resolver_table (runTrace e (inputs.take a))
        (inputs.getD a default).msg.parents
        (inputs.getD a default).msg.message_id := by
      rw [resolver_table_mem]
      right
      refine ⟨X, hXpar, ?_⟩
      rw [hfindB]
      exact htB
    have htids : tB ∈ find_thread_ids e (runTrace e (inputs.take a))
        (inputs.getD a default).msg.parents
        (inputs.getD a default).msg.message_id := (he _).mem_iff.mpr htab
    have htidsne := List.ne_nil_of_mem htids
    have hAfr2 : frags (getValue (dbDoc (runTrace e inputs) a) 1) =
        find_thread_ids e (runTrace e (inputs.take a))
          (inputs.getD a default).msg.parents
          (inputs.getD a default).msg.message_id := by
      rw [hdocA, buildDocument_getValue1, if_neg htidsne]
      exact joinComma_frags_of_hex _ htidsne
        (find_thread_ids_hex e _ _ _ he (runTrace_DbWF e _ he))
    exact ⟨tB, by rw [hAfr2]; exact htids, htB⟩

/-- First claimant of msgid x in the C2 counterexample corpus. -/
def dupA : Ingest := ⟨"f1".data, ⟨some ['x'], [], 0⟩, (0, 0, 0, 1)⟩

/-- Message B: the second, duplicate claimant of msgid x. -/
def dupB : Ingest := ⟨"f2".data, ⟨some ['x'], [], 0⟩, (0, 0, 0, 2)⟩

/-- Message A: it references msgid x. -/
def dupC : Ingest := ⟨"f3".data, ⟨some ['c'], [['x']], 0⟩, (0, 0, 0, 3)⟩

/-- Counterexample for C2 as stated: with a duplicated MsgId the claim
fails.  Message A (document 2) references x, message B (document 1)
claims x, both are indexed, yet their slot-1 ThreadId sets are disjoint:
the resolver read the first claimant (document 0) only. -/
theorem C2_counterexample :
    ('R' :: ['x']) ∈ (dbDoc (runTrace id [dupA, dupB, dupC]) 2).terms ∧
    (dupC.msg.parents = [['x']] ∧ dupB.msg.message_id = some ['x']) ∧
    ('Q' :: ['x']) ∈ (dbDoc (runTrace id [dupA, dupB, dupC]) 1).terms ∧
    (frags (getValue (dbDoc (runTrace id [dupA, dupB, dupC]) 2) 1)).inter
      (frags (getValue (dbDoc (runTrace id [dupA, dupB, dupC]) 1) 1)) =
      [] := by
  exact ⟨by decide, ⟨rfl, rfl⟩, by decide, by decide⟩

/-- First message for the C2 witness corpus. -/
def w2A : Ingest := ⟨"g1".data, ⟨some ['p'], [], 0⟩, (0, 0, 0, 5)⟩

/-- Reply to it for the C2 witness corpus. -/
def w2B : Ingest := ⟨"g2".data, ⟨some ['q'], [['p']], 0⟩, (0, 0, 0, 6)⟩

/-- Witness for C2 (amended): parent then child, a shared id exists. -/
theorem C2_witness :
    EnumOk id ∧
    ('R' :: ['p']) ∈ (dbDoc (runTrace id [w2A, w2B]) 1).terms ∧
    ('Q' :: ['p']) ∈ (dbDoc (runTrace id [w2A, w2B]) 0).terms ∧
    getValue (dbDoc (runTrace id [w2A, w2B]) 1) 1 ≠ [] ∧
    (∃ t : Str, t ∈ frags (getValue (dbDoc (runTrace id [w2A, w2B]) 1) 1) ∧
      t ∈ frags (getValue (dbDoc (runTrace id [w2A, w2B]) 0) 1)) :=
  ⟨fun l => List.Perm.refl l, by decide, by decide, by decide,
    C2_shared_thread_id id [w2A, w2B] 1 0 ['p'] (fun l => List.Perm.refl l)
      (by decide) (by decide) (by decide) (by decide)
      (fun j hj => absurd hj (by omega)) (by decide)⟩

